import Mathlib

/-!
Verification of the Repeat-Runner macro engine (repeat_runner/executor.py,
repeat_runner/macros.py, repeat_runner/logger.py) against its specification.

Python values appearing in macro definitions are embedded as `PyVal`.
Python dicts are embedded as insertion-ordered association lists with
unique keys; Python sets as insertion-ordered lists whose iteration
order is abstracted by a permutation parameter (`Ctx.setIter`), since
CPython set iteration order is unspecified.
-/

/-- Embedding of the Python values that can occur in a parsed YAML macro
file: strings, integers, booleans, None, lists, and dicts (insertion
ordered, string keys). -/
inductive PyVal where
  | str (s : String)
  | int (n : Int)
  | bool (b : Bool)
  | none
  | list (xs : List PyVal)
  | dict (kvs : List (String × PyVal))

mutual
/-- Python `==` on embedded values (value equality). -/
def PyVal.beq : PyVal → PyVal → Bool
  | .str a, .str b => a == b
  | .int a, .int b => a == b
  | .bool a, .bool b => a == b
  | .none, .none => true
  | .list xs, .list ys => beqPyList xs ys
  | .dict xs, .dict ys => beqPyDict xs ys
  | _, _ => false

/-- Python `==` on lists of embedded values. -/
def beqPyList : List PyVal → List PyVal → Bool
  | [], [] => true
  | x :: xs, y :: ys => PyVal.beq x y && beqPyList xs ys
  | _, _ => false

/-- Python `==` on dicts of embedded values. -/
def beqPyDict : List (String × PyVal) → List (String × PyVal) → Bool
  | [], [] => true
  | (k1, v1) :: xs, (k2, v2) :: ys => k1 == k2 && PyVal.beq v1 v2 && beqPyDict xs ys
  | _, _ => false
end

/-- First-match lookup in an association list (Python dict `get`;
keys are unique in a real dict so first match is the match). -/
def dictGet (kvs : List (String × PyVal)) (k : String) : Option PyVal :=
  match kvs with
  | [] => Option.none
  | (k1, v1) :: rest => if k1 = k then some v1 else dictGet rest k

/-- Python `k in d` for a dict. -/
def dictHas (kvs : List (String × PyVal)) (k : String) : Bool :=
  match kvs with
  | [] => false
  | (k1, _) :: rest => k1 == k || dictHas rest k

/-- Python `type(v).__name__`. -/
def typeName (v : PyVal) : String :=
  match v with
  | .str _ => "str"
  | .int _ => "int"
  | .bool _ => "bool"
  | .none => "NoneType"
  | .list _ => "list"
  | .dict _ => "dict"

mutual
/-- Python `repr()` of an embedded value (string escaping omitted). -/
def pyRepr : PyVal → String
  | .str s => "'" ++ s ++ "'"
  | .int n => toString n
  | .bool b => if b then "True" else "False"
  | .none => "None"
  | .list xs => "[" ++ pyReprList xs ++ "]"
  | .dict kvs => "\x7b" ++ pyReprDict kvs ++ "\x7d"

/-- Comma-joined `repr`s of list elements. -/
def pyReprList : List PyVal → String
  | [] => ""
  | [x] => pyRepr x
  | x :: y :: rest => pyRepr x ++ ", " ++ pyReprList (y :: rest)

/-- Comma-joined `'key': repr(value)` pairs of a dict. -/
def pyReprDict : List (String × PyVal) → String
  | [] => ""
  | [(k, v)] => "'" ++ k ++ "': " ++ pyRepr v
  | (k, v) :: p :: rest => "'" ++ k ++ "': " ++ pyRepr v ++ ", " ++ pyReprDict (p :: rest)
end

/-- Python `str()`, as used by f-string interpolation. -/
def pyStr (v : PyVal) : String :=
  match v with
  | .str s => s
  | v => pyRepr v

/-- Python `str.strip()` restricted to ordinary whitespace. -/
def pyStrip (s : String) : String :=
  ⟨((s.data.dropWhile Char.isWhitespace).reverse.dropWhile Char.isWhitespace).reverse⟩

/-- Python `' -> '.join(names)`. -/
def joinArrow : List String → String
  | [] => ""
  | [x] => x
  | x :: y :: rest => x ++ " -> " ++ joinArrow (y :: rest)

/-- Exceptions that can escape the embedded fragment uncaught. -/
inductive PyExn where
  | fileNotFound (msg : String)
  | valueError (msg : String)
deriving DecidableEq, Repr

/-- macros.load_macros: reads the macro mapping from `file_path`
(default "runner.yaml").  The filesystem collaborator `fs` yields the
parsed YAML document of a path, or `Option.none` when the file is
absent, in which case a FileNotFoundError is raised.  A dict root with
a `macros` key unwraps that key; any other dict root is itself the
mapping; a `null` document yields an empty mapping; a non-dict root is
a ValueError. -/
def load_macros (fs : String → Option PyVal) (file_path : String) : Except PyExn PyVal :=
  match fs file_path with
  | Option.none => .error (.fileNotFound ("Macro file " ++ file_path ++ " not found"))
  | some data =>
    match data with
    | .none => .ok (.dict [])
    | .dict kvs =>
      if dictHas kvs "macros" then .ok ((dictGet kvs "macros").getD .none)
      else .ok (.dict kvs)
    | _ => .error (.valueError "Invalid macro file format: root must be a dictionary")

/-- The ValueError message for a non-string `env` value (names the
offending key). -/
def envValErrMsg (key macro_name tn : String) : String :=
  "Environment variable '" ++ key ++ "' in macro '" ++ macro_name ++
    "' must be a string, got " ++ tn

/-- First non-string value in an `env` dict, rendered as the ValueError
message macros.validate_macro_definition raises for it. -/
def firstBadEnvVal (macro_name : String) : List (String × PyVal) → Option String
  | [] => Option.none
  | (key, value) :: rest =>
    match value with
    | .str _ => firstBadEnvVal macro_name rest
    | v => some (envValErrMsg key macro_name (typeName v))

/-- macros.validate_macro_definition: accepts a bare list, or a dict
with a `commands` list and an optional `env` dict whose values are all
strings; every other shape is a ValueError whose message mirrors the
source. -/
def validate_macro_definition (macro_name : String) (macro_def : PyVal) : Except String Unit :=
  match macro_def with
  | .list _ => .ok ()
  | .dict kvs =>
    match dictGet kvs "commands" with
    | Option.none =>
      .error s!"Macro '{macro_name}' must have 'commands' key. Valid keys are: 'commands', 'env'"
    | some cmds =>
      match cmds with
      | .list _ =>
        match dictGet kvs "env" with
        | Option.none => .ok ()
        | some envVal =>
          match envVal with
          | .dict envKvs =>
            match firstBadEnvVal macro_name envKvs with
            | Option.none => .ok ()
            | some msg => .error msg
          | other =>
            let tn := typeName other
            .error s!"Macro '{macro_name}' environment variables must be a dictionary, got {tn}"
      | other =>
        let tn := typeName other
        .error s!"Macro '{macro_name}' commands must be a list, got {tn}"
  | other =>
    let tn := typeName other
    .error s!"Macro '{macro_name}' must be a dictionary or list, got {tn}"

/-- Logger.log_command: the timestamped block appended to the log file
for one command execution.  `EXECUTED:` always; `OUTPUT:` exactly when
the `output` argument is non-empty; `ERROR:` exactly when the `error`
argument is non-empty. -/
def log_command_entry (ts : String) (command : PyVal) (output : String) (error : String) : String :=
  let e1 := "[" ++ ts ++ "] EXECUTED: " ++ pyStr command
  let e2 := if output ≠ "" then e1 ++ "\n[" ++ ts ++ "] OUTPUT: " ++ output else e1
  if error ≠ "" then e2 ++ "\n[" ++ ts ++ "] ERROR: " ++ error else e2

/-- Result of one subprocess.run call: a completed process with return
code and captured streams, or an exception raised by the invocation
itself. -/
inductive ExecOutcome where
  | ok (returncode : Int) (stdout : String) (stderr : String)
  | exn (msg : String)
deriving DecidableEq, Repr

/-- Observable events the engine emits: logger messages, per-command
log records (the arguments handed to Logger.log_command), and one
`execCmd` event per subprocess.run invocation (command and environment
passed to it). -/
inductive Event where
  | info (msg : String)
  | error (msg : String)
  | warn (msg : String)
  | logCommand (command : PyVal) (output : String) (error : String)
  | execCmd (command : PyVal) (env : List (String × PyVal))

/-- How one call of executor.execute_macro ends: normal return,
sys.exit with a code, an uncaught exception, or fuel exhaustion (the
embedding's recursion bound, never reached by a terminating run given
enough fuel). -/
inductive Outcome where
  | ok
  | exit (code : Int)
  | raised (e : PyExn)
  | fuelOut
deriving DecidableEq, Repr

/-- Collaborators and ambient inputs of one run: the filesystem (parsed
YAML per path), the subprocess runner, os.environ, the logger flags,
and the iteration order CPython happens to use for the executed-macros
set (any permutation of insertion order). -/
structure Ctx where
  fs : String → Option PyVal
  run : PyVal → List (String × PyVal) → ExecOutcome
  osEnv : List (String × String)
  dry_run : Bool
  verbose : Bool
  setIter : List String → List String

/-- Mutable state threaded through the run: the executed-macros set in
insertion order, and the trace of emitted events. -/
structure St where
  stack : List String
  events : List Event

/-- Append one event to the trace. -/
def emit (e : Event) (st : St) : St :=
  { st with events := st.events ++ [e] }

/-- `os.environ.copy()` as a PyVal-valued environment dict. -/
def baseEnv (ctx : Ctx) : List (String × PyVal) :=
  ctx.osEnv.map (fun p => (p.1, PyVal.str p.2))

/-- Python dict assignment `m[k] = v`: overwrite in place if the key
exists, else append. -/
def dictSetP (m : List (String × PyVal)) (k : String) (v : PyVal) : List (String × PyVal) :=
  if m.any (fun p => p.1 == k) then m.map (fun p => if p.1 == k then (k, v) else p)
  else m ++ [(k, v)]

/-- Python `base.update(ups)`. -/
def envUpdate (base : List (String × PyVal)) (ups : List (String × PyVal)) : List (String × PyVal) :=
  ups.foldl (fun m kv => dictSetP m kv.1 kv.2) base

/-- Lookup in the runtime environment dict. -/
def envLookup (m : List (String × PyVal)) (k : String) : Option PyVal :=
  (m.find? (fun p => p.1 == k)).map (fun p => p.2)

/-- Elements of a PyVal known to be a list (the executor iterates
`commands` only after validation has established it is a list). -/
def pyListElems (v : PyVal) : List PyVal :=
  match v with
  | .list xs => xs
  | _ => []

/-- Pairs of a PyVal known to be a dict (the executor reads `env` only
after validation has established it is a dict). -/
def pyDictPairs (v : PyVal) : List (String × PyVal) :=
  match v with
  | .dict kvs => kvs
  | _ => []

/-- `isinstance(command, dict) and 'call' in command`: the executor's
test for a Macro Call step. -/
def isCallDict (v : PyVal) : Bool :=
  match v with
  | .dict kvs => dictHas kvs "call"
  | _ => false

/-- Python `called_macro_name not in all_macros` negated, for a dict of
macros and a (string) name. -/
def pyDictMem (d : PyVal) (k : PyVal) : Bool :=
  match d, k with
  | .dict kvs, .str s => dictHas kvs s
  | _, _ => false

/-- Python `all_macros[called_macro_name]`. -/
def pyDictGetV (d : PyVal) (k : PyVal) : PyVal :=
  match d, k with
  | .dict kvs, .str s => (dictGet kvs s).getD .none
  | _, _ => .none

/-- `command` extracted as a plain string name (the found-in-mapping
branch only arises for string keys). -/
def pyAsStr (v : PyVal) : String :=
  match v with
  | .str s => s
  | _ => ""

/-- Python `list.index(x)` (index of the first element equal by value). -/
def pyIndex (l : List PyVal) (x : PyVal) : Nat :=
  match l with
  | [] => 0
  | y :: ys => if PyVal.beq y x then 0 else pyIndex ys x + 1

/-- One Literal Command step (executor.py lines 85-133).  Returns
`(some code, st)` when the step called sys.exit with `code`, and
`(Option.none, st)` when execution continues with the next step.
`allCommands` is the full `commands` list (the progress index is
recomputed from it at every literal step); the Nat argument is the
`enumerate` index `i`. -/
def runLiteral (ctx : Ctx) (allCommands : List PyVal) (env : List (String × PyVal))
    (continue_on_error : Bool) (i : Nat) (command : PyVal) (st : St) : Option Int × St :=
  let actual_commands := allCommands.filter (fun c => !(isCallDict c))
  let command_index :=
    if actual_commands.any (fun c => PyVal.beq c command) then
      pyIndex actual_commands command + 1
    else i + 1
  let total_commands := actual_commands.length
  let cmdS := pyStr command
  let st := emit (.info s!"Running command [{command_index}/{total_commands}]: {cmdS}") st
  if ctx.dry_run then
    (Option.none, emit (.info s!"[DRY RUN] Would execute: {cmdS}") st)
  else
    let st := emit (.execCmd command env) st
    match ctx.run command env with
    | .exn e =>
      let st := emit (.logCommand command "" e) st
      let st := emit (.error s!"Error executing command '{cmdS}': {e}") st
      if !continue_on_error then (some 1, st)
      else (Option.none, emit (.warn s!"Continuing after exception for command: {cmdS}") st)
    | .ok rc stdout stderr =>
      let outS := pyStrip stdout
      let errS := pyStrip stderr
      let st := emit (.logCommand command (if outS ≠ "" then outS else "(no output)")
                        (if errS ≠ "" then errS else "")) st
      let st :=
        if ctx.verbose then
          let st := emit (.info s!"Command output:\n{stdout}") st
          if stderr ≠ "" then emit (.error s!"Command errors:\n{stderr}") st else st
        else st
      if rc ≠ 0 then
        let st := emit (.error s!"Command failed with return code {rc}: {cmdS}") st
        let st := if stderr ≠ "" then emit (.error s!"Command errors:\n{stderr}") st else st
        if !continue_on_error then
          (some rc, emit (.error "Stopping execution due to command failure.") st)
        else (Option.none, emit (.warn s!"Continuing after command failure: {cmdS}") st)
      else (Option.none, emit (.info s!"Command completed successfully: {cmdS}") st)

/-- Propagation of a nested execute_macro result: a normal return lets
the loop continue with the recursion's final state; every other outcome
(sys.exit, uncaught exception) ends the whole run here. -/
def propagateStep (p : Outcome × St) : Option Outcome × St :=
  match p with
  | (.ok, st2) => (Option.none, st2)
  | (out, st2) => (some out, st2)

/-- One Macro Call step (executor.py lines 68-83).  `recurse` is the
recursive execute_macro call.  Returns `(some out, st)` when the run
ends here (sys.exit or an uncaught exception propagating), and
`(Option.none, st)` when execution continues with the next step. -/
def runCallStep (ctx : Ctx) (recurse : String → PyVal → Bool → St → Outcome × St)
    (continue_on_error : Bool) (command : PyVal) (st : St) : Option Outcome × St :=
  let called := pyDictGetV command (.str "call")
  let calledS := pyStr called
  let st := emit (.info s!"Calling macro: {calledS}") st
  match load_macros ctx.fs "runner.yaml" with
  | .error e => (some (.raised e), st)
  | .ok all_macros =>
    if PyVal.beq all_macros PyVal.none || !(pyDictMem all_macros called) then
      let st := emit (.error s!"Macro '{calledS}' not found") st
      if !continue_on_error then (some (.exit 1), st)
      else (Option.none, emit (.warn s!"Skipping missing macro call: {calledS}") st)
    else
      propagateStep (recurse (pyAsStr called) (pyDictGetV all_macros called) continue_on_error st)

/-- The executor's command loop (executor.py lines 66-133): iterate the
full ordered step sequence, dispatching each step to the Macro Call or
Literal Command handler and propagating any terminal outcome. -/
def execSteps (ctx : Ctx) (recurse : String → PyVal → Bool → St → Outcome × St)
    (allCommands : List PyVal) (env : List (String × PyVal)) (continue_on_error : Bool) :
    List PyVal → Nat → St → Outcome × St
  | [], _, st => (.ok, st)
  | command :: rest, i, st =>
    if isCallDict command then
      match runCallStep ctx recurse continue_on_error command st with
      | (some out, st2) => (out, st2)
      | (Option.none, st2) =>
        execSteps ctx recurse allCommands env continue_on_error rest (i + 1) st2
    else
      match runLiteral ctx allCommands env continue_on_error i command st with
      | (some code, st2) => (.exit code, st2)
      | (Option.none, st2) =>
        execSteps ctx recurse allCommands env continue_on_error rest (i + 1) st2

/-- End of the step loop (executor.py lines 135-136): on a normal
return, pop the macro name off the executed-macros set and report
completion; any terminal outcome passes through unchanged. -/
def finishRun (macro_name : String) (p : Outcome × St) : Outcome × St :=
  match p with
  | (.ok, st2) =>
    (.ok, emit (.info s!"Macro '{macro_name}' completed successfully")
      { st2 with stack := st2.stack.erase macro_name })
  | (out, st2) => (out, st2)

/-- executor.execute_macro.  Fuel bounds the recursion depth of the
embedding; a run whose call tree is shallower than the fuel never sees
`fuelOut`.  The body mirrors executor.py lines 31-136: cycle check
against the shared executed-macros set (rendered through the set's
iteration order `ctx.setIter` on detection), push, validation,
dict/list normalization with `os.environ.copy()` plus the macro's own
`env` overrides, the step loop, pop, and the completion message. -/
def executeMacro (ctx : Ctx) : Nat → String → PyVal → Bool → St → Outcome × St
  | 0, _, _, _, st => (.fuelOut, st)
  | fuel + 1, macro_name, macro_definition, continue_on_error, st =>
    if st.stack.contains macro_name then
      let chain := joinArrow (ctx.setIter st.stack)
      (.exit 1,
       emit (.error s!"Circular macro call detected in macro '{macro_name}'. Call stack: {chain} -> {macro_name}") st)
    else
      let st := { st with stack := st.stack ++ [macro_name] }
      let st := emit (.info s!"Executing macro: {macro_name}") st
      match validate_macro_definition macro_name macro_definition with
      | .error e => (.exit 1, emit (.error s!"Invalid macro definition: {e}") st)
      | .ok _ =>
        match macro_definition with
        | .dict kvs =>
          let commands := pyListElems ((dictGet kvs "commands").getD (.list []))
          let macro_env := pyDictPairs ((dictGet kvs "env").getD (.dict []))
          let env := envUpdate (baseEnv ctx) macro_env
          finishRun macro_name
            (execSteps ctx (fun n d c s => executeMacro ctx fuel n d c s)
              commands env continue_on_error commands 0 st)
        | .list xs =>
          finishRun macro_name
            (execSteps ctx (fun n d c s => executeMacro ctx fuel n d c s)
              xs (baseEnv ctx) continue_on_error xs 0 st)
        | _ =>
          (.exit 1, emit (.error s!"Invalid macro definition format for {macro_name}") st)

/-! ## Trace and state helpers -/

/-- Whether an event is a subprocess invocation. -/
def isExecCmdE (e : Event) : Bool :=
  match e with
  | .execCmd _ _ => true
  | _ => false

/-- The commands handed to the subprocess runner, in invocation order. -/
def execCmdsOf (events : List Event) : List PyVal :=
  events.filterMap (fun e => match e with | .execCmd c _ => some c | _ => Option.none)

/-- The environments handed to the subprocess runner, in invocation
order. -/
def envsOf (events : List Event) : List (List (String × PyVal)) :=
  events.filterMap (fun e => match e with | .execCmd _ env => some env | _ => Option.none)

/-- The info messages of a trace, in order. -/
def infosOf (events : List Event) : List String :=
  events.filterMap (fun e => match e with | .info m => some m | _ => Option.none)

/-- The warning messages of a trace, in order. -/
def warnsOf (events : List Event) : List String :=
  events.filterMap (fun e => match e with | .warn m => some m | _ => Option.none)

/-- Substring test on character lists. -/
def listContains : List Char → List Char → Bool
  | [], pat => pat.isPrefixOf []
  | c :: rest, pat => pat.isPrefixOf (c :: rest) || listContains rest pat

/-- Substring test on strings (used to state what a log block or an
error message mentions). -/
def strContains (s pat : String) : Bool :=
  listContains s.data pat.data

theorem emit_events (e : Event) (st : St) : (emit e st).events = st.events ++ [e] := rfl

theorem emit_stack (e : Event) (st : St) : (emit e st).stack = st.stack := rfl

theorem listContains_isPrefix (l p : List Char) (h : p.isPrefixOf l = true) :
    listContains l p = true := by
  cases l with
  | nil => rw [listContains]; exact h
  | cons c rest => rw [listContains]; simp [h]

theorem listContains_append_middle (a p b : List Char) :
    listContains (a ++ p ++ b) p = true := by
  induction a with
  | nil =>
    apply listContains_isPrefix
    simp [List.isPrefixOf_iff_prefix]
  | cons c rest ih =>
    rw [List.cons_append, List.cons_append, listContains]
    simp only [List.cons_append] at ih ⊢
    rw [ih]
    simp

theorem strContains_append_middle (a p b : String) :
    strContains (a ++ p ++ b) p = true := by
  have h : (a ++ p ++ b).data = a.data ++ p.data ++ b.data := by
    simp [String.data_append]
  rw [strContains, h]
  exact listContains_append_middle a.data p.data b.data

/-! ## C7: exact conditions for a ValidationError -/

theorem firstBadEnvVal_isSome_iff (n : String) :
    ∀ m : List (String × PyVal),
      (firstBadEnvVal n m).isSome = true ↔ ∃ kv ∈ m, ∀ s, kv.2 ≠ PyVal.str s := by
  intro m
  induction m with
  | nil => simp [firstBadEnvVal]
  | cons kv rest ih =>
    obtain ⟨key, value⟩ := kv
    cases value with
    | str s =>
      rw [firstBadEnvVal]
      simp only [List.mem_cons, ih]
      constructor
      · rintro ⟨kv, hmem, hne⟩
        exact ⟨kv, Or.inr hmem, hne⟩
      · rintro ⟨kv, hmem, hne⟩
        rcases hmem with heq | hmem
        · exact absurd rfl (heq ▸ hne s)
        · exact ⟨kv, hmem, hne⟩
    | int v =>
      exact ⟨fun _ => ⟨(key, .int v), List.mem_cons_self _ _, fun s h => PyVal.noConfusion h⟩,
             fun _ => rfl⟩
    | bool v =>
      exact ⟨fun _ => ⟨(key, .bool v), List.mem_cons_self _ _, fun s h => PyVal.noConfusion h⟩,
             fun _ => rfl⟩
    | none =>
      exact ⟨fun _ => ⟨(key, .none), List.mem_cons_self _ _, fun s h => PyVal.noConfusion h⟩,
             fun _ => rfl⟩
    | list xs =>
      exact ⟨fun _ => ⟨(key, .list xs), List.mem_cons_self _ _, fun s h => PyVal.noConfusion h⟩,
             fun _ => rfl⟩
    | dict kvs =>
      exact ⟨fun _ => ⟨(key, .dict kvs), List.mem_cons_self _ _, fun s h => PyVal.noConfusion h⟩,
             fun _ => rfl⟩

theorem firstBadEnvVal_names_key (n : String) :
    ∀ (m : List (String × PyVal)) (msg : String), firstBadEnvVal n m = some msg →
      ∃ key value, (key, value) ∈ m ∧ (∀ s, value ≠ PyVal.str s) ∧
        msg = envValErrMsg key n (typeName value) := by
  intro m
  induction m with
  | nil => intro msg h; exact absurd h (by simp [firstBadEnvVal])
  | cons kv rest ih =>
    obtain ⟨key, value⟩ := kv
    intro msg h
    cases value with
    | str s =>
      rw [firstBadEnvVal] at h
      obtain ⟨k2, v2, hmem, hne, heq⟩ := ih msg h
      exact ⟨k2, v2, List.mem_cons_of_mem _ hmem, hne, heq⟩
    | int v =>
      refine ⟨key, PyVal.int v, List.mem_cons_self _ _, fun s hh => PyVal.noConfusion hh, ?_⟩
      have h2 : some (envValErrMsg key n (typeName (PyVal.int v))) = some msg := h
      exact (Option.some.inj h2).symm
    | bool v =>
      refine ⟨key, PyVal.bool v, List.mem_cons_self _ _, fun s hh => PyVal.noConfusion hh, ?_⟩
      have h2 : some (envValErrMsg key n (typeName (PyVal.bool v))) = some msg := h
      exact (Option.some.inj h2).symm
    | none =>
      refine ⟨key, PyVal.none, List.mem_cons_self _ _, fun s hh => PyVal.noConfusion hh, ?_⟩
      have h2 : some (envValErrMsg key n (typeName (PyVal.none))) = some msg := h
      exact (Option.some.inj h2).symm
    | list xs =>
      refine ⟨key, PyVal.list xs, List.mem_cons_self _ _, fun s hh => PyVal.noConfusion hh, ?_⟩
      have h2 : some (envValErrMsg key n (typeName (PyVal.list xs))) = some msg := h
      exact (Option.some.inj h2).symm
    | dict kvs =>
      refine ⟨key, PyVal.dict kvs, List.mem_cons_self _ _, fun s hh => PyVal.noConfusion hh, ?_⟩
      have h2 : some (envValErrMsg key n (typeName (PyVal.dict kvs))) = some msg := h
      exact (Option.some.inj h2).symm

/-- The spec's conditions for a ValidationError, stated from the spec's
words (§4.1): the definition is neither a sequence nor a structured
object; or, in the structured shape, `commands` is missing or not a
sequence; or `env` is present but not a mapping; or some `env` value is
not a string. -/
def specInvalidDefinition (d : PyVal) : Prop :=
  ((∀ xs, d ≠ PyVal.list xs) ∧ (∀ kvs, d ≠ PyVal.dict kvs)) ∨
  (∃ kvs, d = PyVal.dict kvs ∧
    (dictGet kvs "commands" = Option.none ∨
     ∃ v, dictGet kvs "commands" = some v ∧ ∀ xs, v ≠ PyVal.list xs)) ∨
  (∃ kvs v, d = PyVal.dict kvs ∧ dictGet kvs "env" = some v ∧ ∀ m, v ≠ PyVal.dict m) ∨
  (∃ kvs m kv, d = PyVal.dict kvs ∧ dictGet kvs "env" = some (PyVal.dict m) ∧
    kv ∈ m ∧ ∀ s, kv.2 ≠ PyVal.str s)

theorem validate_error_iff (n : String) (d : PyVal) :
    (∃ e, validate_macro_definition n d = .error e) ↔ specInvalidDefinition d := by
  cases d with
  | str s =>
    simp only [validate_macro_definition, specInvalidDefinition]
    constructor
    · intro _; exact Or.inl ⟨nofun, nofun⟩
    · intro _; exact ⟨_, rfl⟩
  | int v =>
    simp only [validate_macro_definition, specInvalidDefinition]
    constructor
    · intro _; exact Or.inl ⟨nofun, nofun⟩
    · intro _; exact ⟨_, rfl⟩
  | bool v =>
    simp only [validate_macro_definition, specInvalidDefinition]
    constructor
    · intro _; exact Or.inl ⟨nofun, nofun⟩
    · intro _; exact ⟨_, rfl⟩
  | none =>
    simp only [validate_macro_definition, specInvalidDefinition]
    constructor
    · intro _; exact Or.inl ⟨nofun, nofun⟩
    · intro _; exact ⟨_, rfl⟩
  | list xs =>
    simp only [validate_macro_definition, specInvalidDefinition]
    constructor
    · rintro ⟨e, he⟩; exact absurd he nofun
    · rintro (⟨h1, _⟩ | ⟨kvs, h, _⟩ | ⟨kvs, v, h, _⟩ | ⟨kvs, m, kv, h, _⟩)
      · exact absurd rfl (h1 xs)
      · exact absurd h nofun
      · exact absurd h nofun
      · exact absurd h nofun
  | dict kvs =>
    rw [validate_macro_definition.eq_def]
    simp only [specInvalidDefinition]
    cases hc : dictGet kvs "commands" with
    | none =>
      constructor
      · intro _
        exact Or.inr (Or.inl ⟨kvs, rfl, Or.inl hc⟩)
      · intro _; exact ⟨_, rfl⟩
    | some cmds =>
      cases cmds with
      | list cxs =>
        cases he : dictGet kvs "env" with
        | none =>
          constructor
          · rintro ⟨e, hee⟩; exact absurd hee nofun
          · rintro (⟨_, h2⟩ | ⟨kvs2, h, hbad⟩ | ⟨kvs2, v, h, hev, _⟩ | ⟨kvs2, m, kv, h, hev, _, _⟩)
            · exact absurd rfl (h2 kvs)
            · cases h
              rcases hbad with hbad | ⟨v, hv, hnl⟩
              · rw [hc] at hbad; exact absurd hbad nofun
              · rw [hc] at hv; cases hv; exact absurd rfl (hnl cxs)
            · cases h; rw [hc, he] at *; exact absurd hev nofun
            · cases h; rw [hc, he] at *; exact absurd hev nofun
        | some envVal =>
          cases envVal with
          | dict ekvs =>
            cases hb : firstBadEnvVal n ekvs with
            | none =>
              constructor
              · rintro ⟨e, hee⟩
                simp only [hb] at hee
                exact absurd hee nofun
              · rintro (⟨_, h2⟩ | ⟨kvs2, h, hbad⟩ | ⟨kvs2, v, h, hev, hnd⟩ |
                        ⟨kvs2, m, kv, h, hev, hmem, hns⟩)
                · exact absurd rfl (h2 kvs)
                · cases h
                  rcases hbad with hbad | ⟨v, hv, hnl⟩
                  · rw [hc] at hbad; exact absurd hbad nofun
                  · rw [hc] at hv; cases hv; exact absurd rfl (hnl cxs)
                · cases h; rw [he] at hev; cases hev; exact absurd rfl (hnd ekvs)
                · cases h
                  rw [he] at hev
                  cases hev
                  have hsome : (firstBadEnvVal n ekvs).isSome = true :=
                    (firstBadEnvVal_isSome_iff n ekvs).2 ⟨kv, hmem, hns⟩
                  rw [hb] at hsome
                  exact absurd hsome nofun
            | some msg =>
              constructor
              · intro _
                have : (firstBadEnvVal n ekvs).isSome = true := by rw [hb]; rfl
                obtain ⟨kv, hmem, hns⟩ := (firstBadEnvVal_isSome_iff n ekvs).1 this
                exact Or.inr (Or.inr (Or.inr ⟨kvs, ekvs, kv, rfl, he, hmem, hns⟩))
              · intro _
                exact ⟨msg, by simp [hb]⟩
          | str s =>
            constructor
            · intro _; exact Or.inr (Or.inr (Or.inl ⟨kvs, _, rfl, he, nofun⟩))
            · intro _; exact ⟨_, rfl⟩
          | int v =>
            constructor
            · intro _; exact Or.inr (Or.inr (Or.inl ⟨kvs, _, rfl, he, nofun⟩))
            · intro _; exact ⟨_, rfl⟩
          | bool v =>
            constructor
            · intro _; exact Or.inr (Or.inr (Or.inl ⟨kvs, _, rfl, he, nofun⟩))
            · intro _; exact ⟨_, rfl⟩
          | none =>
            constructor
            · intro _; exact Or.inr (Or.inr (Or.inl ⟨kvs, _, rfl, he, nofun⟩))
            · intro _; exact ⟨_, rfl⟩
          | list lxs =>
            constructor
            · intro _; exact Or.inr (Or.inr (Or.inl ⟨kvs, _, rfl, he, nofun⟩))
            · intro _; exact ⟨_, rfl⟩
      | str s =>
        constructor
        · intro _; exact Or.inr (Or.inl ⟨kvs, rfl, Or.inr ⟨_, hc, nofun⟩⟩)
        · intro _; exact ⟨_, rfl⟩
      | int v =>
        constructor
        · intro _; exact Or.inr (Or.inl ⟨kvs, rfl, Or.inr ⟨_, hc, nofun⟩⟩)
        · intro _; exact ⟨_, rfl⟩
      | bool v =>
        constructor
        · intro _; exact Or.inr (Or.inl ⟨kvs, rfl, Or.inr ⟨_, hc, nofun⟩⟩)
        · intro _; exact ⟨_, rfl⟩
      | none =>
        constructor
        · intro _; exact Or.inr (Or.inl ⟨kvs, rfl, Or.inr ⟨_, hc, nofun⟩⟩)
        · intro _; exact ⟨_, rfl⟩
      | dict dkvs =>
        constructor
        · intro _; exact Or.inr (Or.inl ⟨kvs, rfl, Or.inr ⟨_, hc, nofun⟩⟩)
        · intro _; exact ⟨_, rfl⟩

/-! ## Concrete fixtures -/

/-- A filesystem with no files at all. -/
def fsEmpty : String → Option PyVal := fun _ => Option.none

/-- A subprocess runner whose every command succeeds with stdout "hi". -/
def runHi : PyVal → List (String × PyVal) → ExecOutcome := fun _ _ => .ok 0 "hi" ""

/-- A context with empty environment, no files, all commands succeeding,
normal (non-dry, non-verbose) flags, insertion-order set iteration. -/
def ctxPlain : Ctx :=
  { fs := fsEmpty, run := runHi, osEnv := [], dry_run := false, verbose := false, setIter := id }

/-- C7: execute reports a ValidationError and terminates the run fatally,
regardless of continue-on-error and with no command having run, exactly
when the definition is neither a sequence nor a structured object, or
`commands` is missing or not a sequence in the structured shape, or
`env` is present but not a mapping, or some `env` value is not a string
(the error names the offending key). -/
theorem C7_validation_error_exact :
    (∀ n d, (∃ e, validate_macro_definition n d = .error e) ↔ specInvalidDefinition d) ∧
    (∀ (n : String) (m : List (String × PyVal)) (msg : String),
       firstBadEnvVal n m = some msg →
       ∃ key value, (key, value) ∈ m ∧ (∀ s, value ≠ PyVal.str s) ∧
         msg = envValErrMsg key n (typeName value)) ∧
    (∀ (ctx : Ctx) (fuel : Nat) (n : String) (d : PyVal) (con : Bool) (st : St) (e : String),
       st.stack.contains n = false →
       validate_macro_definition n d = .error e →
       executeMacro ctx (fuel + 1) n d con st =
         (.exit 1, emit (.error s!"Invalid macro definition: {e}")
            (emit (.info s!"Executing macro: {n}") { st with stack := st.stack ++ [n] }))) := by
  refine ⟨validate_error_iff, firstBadEnvVal_names_key, ?_⟩
  intro ctx fuel n d con st e h1 h2
  have hn : ¬ n ∈ st.stack := by simpa using h1
  simp [executeMacro, h2, hn]

theorem C7_witness :
    executeMacro ctxPlain 3 "m" (PyVal.str "boom") true ⟨[], []⟩ =
      (.exit 1, emit (.error "Invalid macro definition: Macro 'm' must be a dictionary or list, got str")
         (emit (.info "Executing macro: m") ⟨["m"], []⟩)) := by
  have h := C7_validation_error_exact.2.2 ctxPlain 2 "m" (PyVal.str "boom") true ⟨[], []⟩
    "Macro 'm' must be a dictionary or list, got str" rfl rfl
  simpa using h

/-! ## C10: validation ignores command elements; exotic steps run as literals -/

/-- C10: validation never inspects the elements of the commands
sequence: any step value passes validation; a step that is not a dict
containing a `call` key is handled by the Literal Command branch at
execution time, and an executor exception there is governed by
continue-on-error (exit 1 when false, warn and continue when true),
never reported as a ValidationError. -/
theorem C10_steps_unvalidated_run_as_literals :
    (∀ (n : String) (xs : List PyVal), validate_macro_definition n (.list xs) = .ok ()) ∧
    (∀ (n : String) (kvs : List (String × PyVal)) (xs : List PyVal),
       dictGet kvs "commands" = some (.list xs) → dictGet kvs "env" = Option.none →
       validate_macro_definition n (.dict kvs) = .ok ()) ∧
    (∀ (ctx : Ctx) (recurse : String → PyVal → Bool → St → Outcome × St)
       (allCmds : List PyVal) (env : List (String × PyVal)) (i : Nat) (st : St)
       (command : PyVal) (rest : List PyVal) (e : String),
       isCallDict command = false → ctx.dry_run = false → ctx.run command env = .exn e →
       (let actual_commands := allCmds.filter (fun c => !(isCallDict c))
        let command_index :=
          if actual_commands.any (fun c => PyVal.beq c command) then
            pyIndex actual_commands command + 1
          else i + 1
        let total_commands := actual_commands.length
        let cmdS := pyStr command
        let st4 := emit (.error s!"Error executing command '{cmdS}': {e}")
          (emit (.logCommand command "" e)
            (emit (.execCmd command env)
              (emit (.info s!"Running command [{command_index}/{total_commands}]: {cmdS}") st)))
        execSteps ctx recurse allCmds env false (command :: rest) i st = (.exit 1, st4) ∧
        execSteps ctx recurse allCmds env true (command :: rest) i st =
          execSteps ctx recurse allCmds env true rest (i + 1)
            (emit (.warn s!"Continuing after exception for command: {cmdS}") st4))) := by
  refine ⟨fun n xs => rfl, ?_, ?_⟩
  · intro n kvs xs hc he
    rw [validate_macro_definition.eq_def]
    simp [hc, he]
  · intro ctx recurse allCmds env i st command rest e hcall hdry hrun
    constructor
    · rw [execSteps]
      simp [runLiteral, hcall, hdry, hrun]
    · rw [execSteps]
      simp [runLiteral, hcall, hdry, hrun]

/-- A subprocess runner whose every invocation raises. -/
def runBoom : PyVal → List (String × PyVal) → ExecOutcome := fun _ _ => .exn "nope"

/-- `ctxPlain` with the raising runner. -/
def ctxBoom : Ctx := { ctxPlain with run := runBoom }

theorem C10_witness :
    validate_macro_definition "m" (.list [.int 5, .dict [("x", .none)]]) = .ok () ∧
    execSteps ctxBoom (fun _ _ _ s => (.ok, s)) [.int 5]
        [] false [.int 5] 0 ⟨[], []⟩ =
      (.exit 1, emit (.error "Error executing command '5': nope")
        (emit (.logCommand (.int 5) "" "nope")
          (emit (.execCmd (.int 5) [])
            (emit (.info "Running command [1/1]: 5") ⟨[], []⟩)))) := by
  constructor
  · exact C10_steps_unvalidated_run_as_literals.1 "m" _
  · have h := (C10_steps_unvalidated_run_as_literals.2.2
      ctxBoom (fun _ _ _ s => (.ok, s)) [.int 5] [] 0 ⟨[], []⟩ (.int 5) [] "nope"
      rfl rfl rfl).1
    exact h.trans rfl

/-! ## C4: progress index of duplicate literal commands -/

/-- A macro whose two literal steps are the same command string. -/
def defDup : PyVal := .dict [("commands", .list [.str "echo hi", .str "echo hi"])]

/-- C4 (code bug): the progress total does count only Literal Command
steps, but the displayed index comes from a by-value `list.index`
search, so the second occurrence of a duplicated command is displayed
as step 1 of 2 again instead of step 2 of 2: both literal steps of
`defDup` are reported as `[1/2]`. -/
theorem C4_duplicate_index_bug :
    infosOf (executeMacro ctxPlain 10 "m" defDup false ⟨[], []⟩).2.events =
      ["Executing macro: m",
       "Running command [1/2]: echo hi",
       "Command completed successfully: echo hi",
       "Running command [1/2]: echo hi",
       "Command completed successfully: echo hi",
       "Macro 'm' completed successfully"] ∧
    (executeMacro ctxPlain 10 "m" defDup false ⟨[], []⟩).1 = Outcome.ok :=
  ⟨rfl, rfl⟩

/-! ## C5: OUTPUT line presence in the command log block -/

/-- A subprocess runner that succeeds with empty stdout and stderr. -/
def runSilent : PyVal → List (String × PyVal) → ExecOutcome := fun _ _ => .ok 0 "" ""

/-- `ctxPlain` with the silent runner. -/
def ctxSilent : Ctx := { ctxPlain with run := runSilent }

/-- A macro with the single literal command `true`. -/
def defOne : PyVal := .dict [("commands", .list [.str "true"])]

/-- C5 counterexample: a command whose captured stdout is empty still
produces an `OUTPUT:` line in its log block — the executor substitutes
the placeholder `(no output)` before calling the logger — refuting
"contains an OUTPUT: line if and only if captured stdout was
non-empty". -/
theorem C5_counterexample :
    runSilent (.str "true") [] = .ok 0 "" "" ∧
    (executeMacro ctxSilent 10 "m" defOne false ⟨[], []⟩).2.events =
      [.info "Executing macro: m",
       .info "Running command [1/1]: true",
       .execCmd (.str "true") [],
       .logCommand (.str "true") "(no output)" "",
       .info "Command completed successfully: true",
       .info "Macro 'm' completed successfully"] ∧
    log_command_entry "T" (.str "true") "(no output)" "" =
      "[T] EXECUTED: true\n[T] OUTPUT: (no output)" ∧
    strContains (log_command_entry "T" (.str "true") "(no output)" "") "OUTPUT:" = true :=
  ⟨rfl, rfl, rfl, rfl⟩


/-! ## Trace monotonicity: a step only appends events -/

theorem events_prefix_emit (e : Event) (st : St) : st.events <+: (emit e st).events :=
  ⟨[e], rfl⟩

theorem runLiteral_events_grow (ctx : Ctx) (allCmds : List PyVal)
    (env : List (String × PyVal)) (con : Bool) (i : Nat) (command : PyVal) (st : St) :
    st.events <+: (runLiteral ctx allCmds env con i command st).2.events := by
  rw [runLiteral]
  repeat' split
  all_goals simp [emit, List.append_assoc]

theorem propagateStep_snd (p : Outcome × St) : (propagateStep p).2 = p.2 := by
  obtain ⟨out, st2⟩ := p
  cases out <;> rfl

theorem finishRun_events_grow (n : String) (p : Outcome × St) :
    p.2.events <+: (finishRun n p).2.events := by
  obtain ⟨out, st2⟩ := p
  cases out <;> first
    | exact events_prefix_emit _ _
    | exact List.prefix_refl _

theorem runCallStep_events_grow (ctx : Ctx)
    (recurse : String → PyVal → Bool → St → Outcome × St) (con : Bool)
    (command : PyVal) (st : St)
    (hrec : ∀ n d c s, s.events <+: (recurse n d c s).2.events) :
    st.events <+: (runCallStep ctx recurse con command st).2.events := by
  rw [runCallStep]
  dsimp only
  split
  · exact events_prefix_emit _ _
  · split
    · split
      · exact (events_prefix_emit _ _).trans (events_prefix_emit _ _)
      · exact ((events_prefix_emit _ _).trans (events_prefix_emit _ _)).trans
          (events_prefix_emit _ _)
    · rw [propagateStep_snd]
      exact (events_prefix_emit _ _).trans (hrec _ _ _ _)

theorem execSteps_events_grow (ctx : Ctx)
    (recurse : String → PyVal → Bool → St → Outcome × St)
    (allCmds : List PyVal) (env : List (String × PyVal)) (con : Bool)
    (hrec : ∀ n d c s, s.events <+: (recurse n d c s).2.events) :
    ∀ (rem : List PyVal) (i : Nat) (st : St),
      st.events <+: (execSteps ctx recurse allCmds env con rem i st).2.events := by
  intro rem
  induction rem with
  | nil => intro i st; simp [execSteps]
  | cons command rest ih =>
    intro i st
    rw [execSteps]
    split
    · split
      · next out st2 h =>
          have h1 := runCallStep_events_grow ctx recurse con command st hrec
          rw [h] at h1
          exact h1
      · next st2 h =>
          have h1 := runCallStep_events_grow ctx recurse con command st hrec
          rw [h] at h1
          exact h1.trans (ih _ _)
    · split
      · next code st2 h =>
          have h1 := runLiteral_events_grow ctx allCmds env con i command st
          rw [h] at h1
          exact h1
      · next st2 h =>
          have h1 := runLiteral_events_grow ctx allCmds env con i command st
          rw [h] at h1
          exact h1.trans (ih _ _)

theorem executeMacro_events_grow (ctx : Ctx) :
    ∀ (fuel : Nat) (n : String) (d : PyVal) (con : Bool) (st : St),
      st.events <+: (executeMacro ctx fuel n d con st).2.events := by
  intro fuel
  induction fuel with
  | zero => intro n d con st; simp [executeMacro]
  | succ fuel ih =>
    intro n d con st
    rw [executeMacro]
    split
    · exact events_prefix_emit _ _
    · split
      · exact (events_prefix_emit _ _).trans (events_prefix_emit _ _)
      · split
        · refine List.IsPrefix.trans ?_ (finishRun_events_grow _ _)
          refine List.IsPrefix.trans ?_
            (execSteps_events_grow ctx _ _ _ con (fun n2 d2 c2 s2 => ih n2 d2 c2 s2) _ 0 _)
          exact events_prefix_emit _ _
        · refine List.IsPrefix.trans ?_ (finishRun_events_grow _ _)
          refine List.IsPrefix.trans ?_
            (execSteps_events_grow ctx _ _ _ con (fun n2 d2 c2 s2 => ih n2 d2 c2 s2) _ 0 _)
          exact events_prefix_emit _ _
        · exact (events_prefix_emit _ _).trans (events_prefix_emit _ _)

theorem listContains_append_right (pat t : List Char) :
    ∀ l, listContains l pat = true → listContains (l ++ t) pat = true := by
  intro l
  induction l with
  | nil =>
    intro h
    rw [listContains] at h
    have hp : pat <+: ([] : List Char) := by simpa [List.isPrefixOf_iff_prefix] using h
    have : pat = [] := List.prefix_nil.mp hp
    subst this
    apply listContains_isPrefix
    simp [List.isPrefixOf_iff_prefix]
  | cons c rest ih =>
    intro h
    rw [listContains] at h
    rw [List.cons_append, listContains]
    obtain hp | hc := Bool.or_eq_true_iff.mp h
    · have hp2 : pat <+: c :: rest := by simpa [List.isPrefixOf_iff_prefix] using hp
      have : pat <+: c :: (rest ++ t) := by
        rw [show c :: (rest ++ t) = (c :: rest) ++ t from rfl]
        exact hp2.trans (List.prefix_append _ _)
      simp [List.isPrefixOf_iff_prefix, this]
    · simp [ih hc]

theorem strContains_append_right (s pat t : String) (h : strContains s pat = true) :
    strContains (s ++ t) pat = true := by
  rw [strContains, String.data_append]
  exact listContains_append_right pat.data t.data s.data h

set_option maxHeartbeats 1000000 in
theorem runLiteral_success_log (ctx : Ctx) (allCmds : List PyVal)
    (env : List (String × PyVal)) (con : Bool) (i : Nat) (st : St) (command : PyVal)
    (rc : Int) (out err : String)
    (hdry : ctx.dry_run = false) (hrun : ctx.run command env = .ok rc out err) :
    ∃ msg, (st.events ++ [Event.info msg, Event.execCmd command env,
        Event.logCommand command
          (if pyStrip out ≠ "" then pyStrip out else "(no output)")
          (if pyStrip err ≠ "" then pyStrip err else "")])
      <+: (runLiteral ctx allCmds env con i command st).2.events := by
  refine ⟨(let actual_commands := allCmds.filter (fun c => !(isCallDict c))
           let command_index :=
             if actual_commands.any (fun c => PyVal.beq c command) then
               pyIndex actual_commands command + 1
             else i + 1
           let total_commands := actual_commands.length
           let cmdS := pyStr command
           s!"Running command [{command_index}/{total_commands}]: {cmdS}"), ?_⟩
  rw [runLiteral]
  simp only [hdry, hrun, Bool.false_eq_true, if_false]
  repeat' split
  all_goals simp [emit, List.prefix_append_right_inj, List.cons_prefix_cons, List.append_assoc]

/-- C5 (amended): for every command the executor actually ran, the log
block always contains an `EXECUTED:` line and always contains an
`OUTPUT:` line — with the stripped stdout when that is non-empty and
the placeholder `(no output)` otherwise, because the executor
substitutes the placeholder before calling the logger — and contains an
`ERROR:` line exactly when the stripped stderr is non-empty. -/
theorem C5_output_line_amended :
    (∀ (ctx : Ctx) (allCmds : List PyVal) (env : List (String × PyVal)) (con : Bool)
       (i : Nat) (st : St) (command : PyVal) (rc : Int) (out err : String),
       ctx.dry_run = false → ctx.run command env = .ok rc out err →
       ∃ msg, (st.events ++ [Event.info msg, Event.execCmd command env,
           Event.logCommand command
             (if pyStrip out ≠ "" then pyStrip out else "(no output)")
             (if pyStrip err ≠ "" then pyStrip err else "")])
         <+: (runLiteral ctx allCmds env con i command st).2.events) ∧
    (∀ out : String, (if pyStrip out ≠ "" then pyStrip out else "(no output)") ≠ "") ∧
    (∀ (ts : String) (cmd : PyVal) (outp errp : String),
       strContains (log_command_entry ts cmd outp errp) "] EXECUTED: " = true) ∧
    (∀ (ts : String) (cmd : PyVal) (outp errp : String), outp ≠ "" →
       strContains (log_command_entry ts cmd outp errp) "] OUTPUT: " = true) ∧
    (∀ (ts : String) (cmd : PyVal) (outp errp : String), errp ≠ "" →
       strContains (log_command_entry ts cmd outp errp) "] ERROR: " = true) ∧
    (∀ (ts : String) (cmd : PyVal) (outp errp : String), outp ≠ "" → errp = "" →
       log_command_entry ts cmd outp errp =
         "[" ++ ts ++ "] EXECUTED: " ++ pyStr cmd ++ "\n[" ++ ts ++ "] OUTPUT: " ++ outp) := by
  refine ⟨runLiteral_success_log, ?_, ?_, ?_, ?_, ?_⟩
  · intro out
    split
    · next h => exact h
    · decide
  · intro ts cmd outp errp
    rw [log_command_entry]
    repeat' split
    all_goals repeat' first
      | exact strContains_append_middle _ _ _
      | apply strContains_append_right
  · intro ts cmd outp errp houtp
    rw [log_command_entry]
    repeat' split
    all_goals first
      | exact absurd houtp (by assumption)
      | (repeat' first
          | exact strContains_append_middle _ _ _
          | apply strContains_append_right)
  · intro ts cmd outp errp herrp
    rw [log_command_entry]
    repeat' split
    all_goals first
      | exact absurd herrp (by assumption)
      | (repeat' first
          | exact strContains_append_middle _ _ _
          | apply strContains_append_right)
  · intro ts cmd outp errp houtp herrp
    rw [log_command_entry]
    simp [houtp, herrp]

theorem C5_witness :
    (∃ msg, ([] : List Event) ++ [Event.info msg, Event.execCmd (.str "true") [],
        Event.logCommand (.str "true") "(no output)" ""] <+:
      (runLiteral ctxSilent [.str "true"] [] false 0 (.str "true") ⟨[], []⟩).2.events) ∧
    log_command_entry "T" (.str "true") "out" "" = "[T] EXECUTED: true\n[T] OUTPUT: out" := by
  constructor
  · exact C5_output_line_amended.1 ctxSilent [.str "true"] [] false 0 ⟨[], []⟩ (.str "true")
      0 "" "" rfl rfl
  · exact C5_output_line_amended.2.2.2.2.2 "T" (.str "true") "out" "" (by decide) rfl

/-! ## C1: nested calls do not inherit the parent's environment -/

/-- A filesystem whose runner.yaml defines macro `b` with one command
and no env overrides. -/
def fsC1 : String → Option PyVal := fun p =>
  if p = "runner.yaml" then
    some (.dict [("b", .dict [("commands", .list [.str "echo $X"])])])
  else Option.none

/-- Macro `a`: calls `b`, then runs its own command, overriding X=outer. -/
def defA : PyVal :=
  .dict [("commands", .list [.dict [("call", .str "b")], .str "echo $X"]),
         ("env", .dict [("X", .str "outer")])]

/-- Context whose ambient process environment carries X=base. -/
def ctxC1 : Ctx :=
  { fs := fsC1, run := runHi, osEnv := [("X", "base"), ("HOME", "/root")],
    dry_run := false, verbose := false, setIter := id }

/-- C1 (code bug): executing `a` (which overrides X=outer and calls `b`,
which has no overrides of its own), the nested macro's command runs with
X bound to the ambient value "base", not the parent's "outer": each
macro builds its environment from `os.environ.copy()` and the recursive
execute_macro call receives no environment, so ancestor overrides are
dropped.  The parent's own command does see X=outer, and a key absent
from all overrides resolves to the ambient value (HOME).  The claim's
"a key overridden by an ancestor but not by the child resolves to the
ancestor's value in the child's commands" is false on the code. -/
theorem C1_child_env_from_ambient :
    (executeMacro ctxC1 10 "a" defA false ⟨[], []⟩).1 = Outcome.ok ∧
    (envsOf (executeMacro ctxC1 10 "a" defA false ⟨[], []⟩).2.events).map
        (fun env => envLookup env "X") =
      [some (.str "base"), some (.str "outer")] ∧
    (envsOf (executeMacro ctxC1 10 "a" defA false ⟨[], []⟩).2.events).map
        (fun env => envLookup env "HOME") =
      [some (.str "/root"), some (.str "/root")] ∧
    execCmdsOf (executeMacro ctxC1 10 "a" defA false ⟨[], []⟩).2.events =
      [.str "echo $X", .str "echo $X"] :=
  ⟨rfl, rfl, rfl, rfl⟩

/-! ## C9: nested calls re-read runner.yaml; a missing file raises -/

/-- A filesystem whose runner.yaml binds `b` to a command different from
what any in-memory mapping of the enclosing run might say. -/
def fsC9 : String → Option PyVal := fun p =>
  if p = "runner.yaml" then
    some (.dict [("b", .dict [("commands", .list [.str "echo new"])])])
  else Option.none

/-- Macro `a` consisting of a single call to `b`. -/
def defCallB : PyVal := .dict [("commands", .list [.dict [("call", .str "b")]])]

/-- `ctxPlain` with the fsC9 filesystem. -/
def ctxC9 : Ctx := { ctxPlain with fs := fsC9 }

/-- C9: resolving a Macro Call step invokes load_macros on the default
path runner.yaml (the in-memory mapping the top-level run started from
is not an input of the step at all); when the file is absent at that
moment the FileNotFoundError escapes execute unhandled — for both
values of continue-on-error — instead of being reported as a missing
macro under the continue-on-error policy.  Concretely, with runner.yaml
present, the nested call executes the definition currently in the file. -/
theorem C9_nested_call_rereads_runner_yaml :
    (∀ (ctx : Ctx) (recurse : String → PyVal → Bool → St → Outcome × St)
       (allCmds : List PyVal) (env : List (String × PyVal)) (con : Bool)
       (command : PyVal) (rest : List PyVal) (i : Nat) (st : St),
       ctx.fs "runner.yaml" = Option.none → isCallDict command = true →
       (let called := pyDictGetV command (.str "call")
        let calledS := pyStr called
        execSteps ctx recurse allCmds env con (command :: rest) i st =
          (.raised (.fileNotFound ("Macro file " ++ "runner.yaml" ++ " not found")),
           emit (.info s!"Calling macro: {calledS}") st))) ∧
    execCmdsOf (executeMacro ctxC9 10 "a" defCallB false ⟨[], []⟩).2.events =
      [.str "echo new"] ∧
    (executeMacro ctxC9 10 "a" defCallB false ⟨[], []⟩).1 = Outcome.ok := by
  refine ⟨?_, rfl, rfl⟩
  intro ctx recurse allCmds env con command rest i st hfs hcall
  rw [execSteps, runCallStep]
  simp [hcall, load_macros, hfs]

theorem C9_witness :
    execSteps ctxPlain (fun _ _ _ s => (.ok, s)) [] [] true
        [.dict [("call", .str "b")]] 0 ⟨[], []⟩ =
      (.raised (.fileNotFound "Macro file runner.yaml not found"),
       emit (.info "Calling macro: b") ⟨[], []⟩) := by
  have h := C9_nested_call_rereads_runner_yaml.1 ctxPlain (fun _ _ _ s => (.ok, s))
    [] [] true (.dict [("call", .str "b")]) [] 0 ⟨[], []⟩ rfl rfl
  exact h.trans rfl

/-! ## C2: cycle detection -/

theorem executeMacro_cycle_detected (ctx : Ctx) (fuel : Nat) (n : String) (d : PyVal)
    (con : Bool) (st : St) (h : st.stack.contains n = true) :
    executeMacro ctx (fuel + 1) n d con st =
      (.exit 1,
       emit (.error (let chain := joinArrow (ctx.setIter st.stack)
         s!"Circular macro call detected in macro '{n}'. Call stack: {chain} -> {n}")) st) := by
  have hn : n ∈ st.stack := by simpa using h
  rw [executeMacro]
  simp [hn]

/-- Two macros calling each other: a → b → a. -/
def fsCyc2 : String → Option PyVal := fun p =>
  if p = "runner.yaml" then
    some (.dict [("a", .dict [("commands", .list [.dict [("call", .str "b")]])]),
                 ("b", .dict [("commands", .list [.dict [("call", .str "a")]])])])
  else Option.none

/-- `a`'s definition in the two-macro cycle. -/
def defCycA : PyVal := .dict [("commands", .list [.dict [("call", .str "b")]])]

/-- `ctxPlain` over the two-macro cycle. -/
def ctxCyc2 : Ctx := { ctxPlain with fs := fsCyc2 }

/-- A macro calling itself. -/
def fsCycSelf : String → Option PyVal := fun p =>
  if p = "runner.yaml" then
    some (.dict [("m", .dict [("commands", .list [.dict [("call", .str "m")]])])])
  else Option.none

/-- `m`'s self-calling definition. -/
def defCycSelf : PyVal := .dict [("commands", .list [.dict [("call", .str "m")]])]

/-- `ctxPlain` over the self-cycle. -/
def ctxCycSelf : Ctx := { ctxPlain with fs := fsCycSelf }

/-- A four-macro cycle a → b → c → d → a. -/
def fsCyc4 : String → Option PyVal := fun p =>
  if p = "runner.yaml" then
    some (.dict [("a", .dict [("commands", .list [.dict [("call", .str "b")]])]),
                 ("b", .dict [("commands", .list [.dict [("call", .str "c")]])]),
                 ("c", .dict [("commands", .list [.dict [("call", .str "d")]])]),
                 ("d", .dict [("commands", .list [.dict [("call", .str "a")]])])])
  else Option.none

/-- `ctxPlain` over the four-macro cycle. -/
def ctxCyc4 : Ctx := { ctxPlain with fs := fsCyc4 }

/-- The two-macro cycle with a context whose set-iteration order is the
reverse of insertion order (a legitimate CPython set order). -/
def ctxCyc2Rev : Ctx := { ctxCyc2 with setIter := List.reverse }

/-- C2 counterexample: Python renders the call stack by joining a set,
whose iteration order need not be insertion order.  With the reversed
iteration order (a permutation of the insertion-ordered stack, as any
set order is) the a → b → a cycle is reported as "b -> a -> a", not the
call-order chain "a -> b -> a"; the run still exits fatally. -/
theorem C2_counterexample :
    (List.reverse ["a", "b"]).Perm ["a", "b"] ∧
    (executeMacro ctxCyc2Rev 10 "a" defCycA false ⟨[], []⟩).1 = Outcome.exit 1 ∧
    (executeMacro ctxCyc2Rev 10 "a" defCycA false ⟨[], []⟩).2.events.getLast? =
      some (.error
        "Circular macro call detected in macro 'a'. Call stack: b -> a -> a") ∧
    "Circular macro call detected in macro 'a'. Call stack: b -> a -> a" ≠
      "Circular macro call detected in macro 'a'. Call stack: a -> b -> a" :=
  ⟨by decide, rfl, rfl, by decide⟩

/-- C2 (amended): whenever execute is entered for a macro already on the
call stack, the run terminates fatally with exit code 1, for both
values of continue-on-error, and the reported message chains the
repeated name after a rendering of the whole stack in the set's
iteration order — a permutation of call order, which lists every macro
name on the cycle but not necessarily in call order.  Concretely
(insertion-order iteration): a direct self-call reports m -> m, a
two-node cycle reports a -> b -> a, and a four-node chain reports
a -> b -> c -> d -> a, each exiting 1 under both continue-on-error
settings. -/
theorem C2_cycle_fatal_chain_permuted :
    (∀ (ctx : Ctx) (fuel : Nat) (n : String) (d : PyVal) (con : Bool) (st : St),
       st.stack.contains n = true → (ctx.setIter st.stack).Perm st.stack →
       ∃ l : List String, l.Perm st.stack ∧
         executeMacro ctx (fuel + 1) n d con st =
           (.exit 1,
            emit (.error (let chain := joinArrow l
              s!"Circular macro call detected in macro '{n}'. Call stack: {chain} -> {n}")) st)) ∧
    ((executeMacro ctxCycSelf 10 "m" defCycSelf false ⟨[], []⟩).1 = Outcome.exit 1 ∧
     (executeMacro ctxCycSelf 10 "m" defCycSelf true ⟨[], []⟩).1 = Outcome.exit 1 ∧
     (executeMacro ctxCycSelf 10 "m" defCycSelf false ⟨[], []⟩).2.events.getLast? =
       some (.error "Circular macro call detected in macro 'm'. Call stack: m -> m")) ∧
    ((executeMacro ctxCyc2 10 "a" defCycA false ⟨[], []⟩).1 = Outcome.exit 1 ∧
     (executeMacro ctxCyc2 10 "a" defCycA true ⟨[], []⟩).1 = Outcome.exit 1 ∧
     (executeMacro ctxCyc2 10 "a" defCycA false ⟨[], []⟩).2.events.getLast? =
       some (.error "Circular macro call detected in macro 'a'. Call stack: a -> b -> a")) ∧
    ((executeMacro ctxCyc4 10 "a" defCycA false ⟨[], []⟩).1 = Outcome.exit 1 ∧
     (executeMacro ctxCyc4 10 "a" defCycA true ⟨[], []⟩).1 = Outcome.exit 1 ∧
     (executeMacro ctxCyc4 10 "a" defCycA false ⟨[], []⟩).2.events.getLast? =
       some (.error
         "Circular macro call detected in macro 'a'. Call stack: a -> b -> c -> d -> a")) := by
  refine ⟨?_, ⟨rfl, rfl, rfl⟩, ⟨rfl, rfl, rfl⟩, ⟨rfl, rfl, rfl⟩⟩
  intro ctx fuel n d con st h hperm
  exact ⟨ctx.setIter st.stack, hperm, executeMacro_cycle_detected ctx fuel n d con st h⟩

theorem C2_witness :
    (executeMacro ctxPlain 3 "y" (.list []) true ⟨["x", "y"], []⟩).1 = Outcome.exit 1 := by
  obtain ⟨l, hperm, heq⟩ := C2_cycle_fatal_chain_permuted.1 ctxPlain 2 "y" (.list []) true
    ⟨["x", "y"], []⟩ rfl (by decide)
  rw [heq]

/-! ## C3: continue-on-error policy -/

/-- A subprocess runner whose every command exits 1 with stderr "boom". -/
def runFail1 : PyVal → List (String × PyVal) → ExecOutcome := fun _ _ => .ok 1 "" "boom"

/-- `ctxPlain` with the failing runner. -/
def ctxFail1 : Ctx := { ctxPlain with run := runFail1 }

/-- The spec scenario macro: two literal commands. -/
def defTwo : PyVal := .dict [("commands", .list [.str "cmd1", .str "cmd2"])]


theorem execCmdsOf_append (l1 l2 : List Event) :
    execCmdsOf (l1 ++ l2) = execCmdsOf l1 ++ execCmdsOf l2 :=
  List.filterMap_append _ _ _

theorem runLiteral_fail_exits (ctx : Ctx) (allCmds : List PyVal)
    (env : List (String × PyVal)) (i : Nat) (st : St) (command : PyVal)
    (rc : Int) (out err : String)
    (hdry : ctx.dry_run = false) (hrun : ctx.run command env = .ok rc out err)
    (hrc : rc ≠ 0) :
    ∃ st2, runLiteral ctx allCmds env false i command st = (some rc, st2) := by
  rw [runLiteral]
  simp only [hdry, hrun, Bool.false_eq_true, if_false, hrc, if_true, ite_true, Bool.not_false]
  repeat' split
  all_goals first
    | exact ⟨_, rfl⟩
    | (next h => exact absurd hrc h)
    | (next h _ => exact absurd hrc h)

theorem runLiteral_exn_exits (ctx : Ctx) (allCmds : List PyVal)
    (env : List (String × PyVal)) (i : Nat) (st : St) (command : PyVal) (e : String)
    (hdry : ctx.dry_run = false) (hrun : ctx.run command env = .exn e) :
    ∃ st2, runLiteral ctx allCmds env false i command st = (some 1, st2) := by
  rw [runLiteral]
  simp only [hdry, hrun, Bool.false_eq_true, if_false]
  exact ⟨_, rfl⟩

set_option maxHeartbeats 1600000 in
theorem runLiteral_con_true (ctx : Ctx) (allCmds : List PyVal)
    (env : List (String × PyVal)) (i : Nat) (st : St) (command : PyVal)
    (hdry : ctx.dry_run = false) :
    ∃ st2, runLiteral ctx allCmds env true i command st = (Option.none, st2) ∧
      execCmdsOf st2.events = execCmdsOf st.events ++ [command] := by
  rw [runLiteral]
  simp only [hdry, Bool.false_eq_true, if_false]
  repeat' split
  all_goals first
    | (refine ⟨_, rfl, ?_⟩
       simp [emit, execCmdsOf, List.filterMap_append])
    | (exfalso; simp_all)

theorem runCallStep_missing_exits (ctx : Ctx)
    (recurse : String → PyVal → Bool → St → Outcome × St) (command : PyVal)
    (st : St) (m : PyVal)
    (hload : load_macros ctx.fs "runner.yaml" = .ok m)
    (hmiss : (PyVal.beq m PyVal.none ||
      !(pyDictMem m (pyDictGetV command (.str "call")))) = true) :
    runCallStep ctx recurse false command st =
      (some (.exit 1),
       (let calledS := pyStr (pyDictGetV command (.str "call"))
        emit (.error s!"Macro '{calledS}' not found")
          (emit (.info s!"Calling macro: {calledS}") st))) := by
  rw [runCallStep]
  simp [hload, hmiss]

/-- C3: with continue-on-error false, execution stops at the first
failing command (exit status = its return code), first missing macro
call (exit 1), or first executor exception (exit 1) — the remaining
steps are never consulted (the result with them present equals the
result with them removed).  With continue-on-error true, every
remaining literal step is run regardless of how earlier ones fail.
Concretely, for `{a: {commands: ["cmd1", "cmd2"]}}` with `cmd1` exiting
1: continue-on-error false halts after cmd1 with exit code 1 and cmd2
never executes; continue-on-error true runs both and warns twice. -/
theorem C3_continue_on_error_policy :
    (∀ (ctx : Ctx) (recurse : String → PyVal → Bool → St → Outcome × St)
       (allCmds : List PyVal) (env : List (String × PyVal)) (i : Nat) (st : St)
       (command : PyVal) (rest : List PyVal) (rc : Int) (out err : String),
       isCallDict command = false → ctx.dry_run = false →
       ctx.run command env = .ok rc out err → rc ≠ 0 →
       execSteps ctx recurse allCmds env false (command :: rest) i st =
         execSteps ctx recurse allCmds env false [command] i st ∧
       ∃ st2, execSteps ctx recurse allCmds env false (command :: rest) i st =
         (.exit rc, st2)) ∧
    (∀ (ctx : Ctx) (recurse : String → PyVal → Bool → St → Outcome × St)
       (allCmds : List PyVal) (env : List (String × PyVal)) (i : Nat) (st : St)
       (command : PyVal) (rest : List PyVal) (m : PyVal),
       isCallDict command = true →
       load_macros ctx.fs "runner.yaml" = .ok m →
       (PyVal.beq m PyVal.none ||
         !(pyDictMem m (pyDictGetV command (.str "call")))) = true →
       execSteps ctx recurse allCmds env false (command :: rest) i st =
         execSteps ctx recurse allCmds env false [command] i st ∧
       ∃ st2, execSteps ctx recurse allCmds env false (command :: rest) i st =
         (.exit 1, st2)) ∧
    (∀ (ctx : Ctx) (recurse : String → PyVal → Bool → St → Outcome × St)
       (allCmds : List PyVal) (env : List (String × PyVal)) (i : Nat) (st : St)
       (command : PyVal) (rest : List PyVal) (e : String),
       isCallDict command = false → ctx.dry_run = false →
       ctx.run command env = .exn e →
       execSteps ctx recurse allCmds env false (command :: rest) i st =
         execSteps ctx recurse allCmds env false [command] i st ∧
       ∃ st2, execSteps ctx recurse allCmds env false (command :: rest) i st =
         (.exit 1, st2)) ∧
    (∀ (ctx : Ctx) (recurse : String → PyVal → Bool → St → Outcome × St)
       (allCmds : List PyVal) (env : List (String × PyVal)) (cmds : List PyVal)
       (i : Nat) (st : St),
       ctx.dry_run = false → (∀ c ∈ cmds, isCallDict c = false) →
       (execSteps ctx recurse allCmds env true cmds i st).1 = .ok ∧
       execCmdsOf (execSteps ctx recurse allCmds env true cmds i st).2.events =
         execCmdsOf st.events ++ cmds) ∧
    ((executeMacro ctxFail1 10 "a" defTwo false ⟨[], []⟩).1 = Outcome.exit 1 ∧
     execCmdsOf (executeMacro ctxFail1 10 "a" defTwo false ⟨[], []⟩).2.events =
       [.str "cmd1"] ∧
     (executeMacro ctxFail1 10 "a" defTwo true ⟨[], []⟩).1 = Outcome.ok ∧
     execCmdsOf (executeMacro ctxFail1 10 "a" defTwo true ⟨[], []⟩).2.events =
       [.str "cmd1", .str "cmd2"] ∧
     warnsOf (executeMacro ctxFail1 10 "a" defTwo true ⟨[], []⟩).2.events =
       ["Continuing after command failure: cmd1",
        "Continuing after command failure: cmd2"]) := by
  refine ⟨?_, ?_, ?_, ?_, rfl, rfl, rfl, rfl, rfl⟩
  · intro ctx recurse allCmds env i st command rest rc out err hcall hdry hrun hrc
    obtain ⟨st2, hlit⟩ := runLiteral_fail_exits ctx allCmds env i st command rc out err
      hdry hrun hrc
    constructor
    · simp only [execSteps]
      simp [hcall, hlit]
    · exact ⟨st2, by simp only [execSteps]; simp [hcall, hlit]⟩
  · intro ctx recurse allCmds env i st command rest m hcall hload hmiss
    have hstep := runCallStep_missing_exits ctx recurse command st m hload hmiss
    constructor
    · simp only [execSteps]
      simp [hcall, hstep]
    · refine ⟨(let calledS := pyStr (pyDictGetV command (.str "call"))
               emit (.error s!"Macro '{calledS}' not found")
                 (emit (.info s!"Calling macro: {calledS}") st)), ?_⟩
      simp only [execSteps]
      simp [hcall, hstep]
  · intro ctx recurse allCmds env i st command rest e hcall hdry hrun
    obtain ⟨st2, hlit⟩ := runLiteral_exn_exits ctx allCmds env i st command e hdry hrun
    constructor
    · simp only [execSteps]
      simp [hcall, hlit]
    · exact ⟨st2, by simp only [execSteps]; simp [hcall, hlit]⟩
  · intro ctx recurse allCmds env cmds
    induction cmds with
    | nil =>
      intro i st _ _
      exact ⟨rfl, by simp [execSteps]⟩
    | cons c cs ih =>
      intro i st hdry hall
      have hc : isCallDict c = false := hall c (List.mem_cons_self _ _)
      obtain ⟨st2, hlit, hcmds⟩ := runLiteral_con_true ctx allCmds env i st c hdry
      have ihr := ih (i + 1) st2 hdry (fun c2 h2 => hall c2 (List.mem_cons_of_mem _ h2))
      constructor
      · rw [execSteps]
        simp only [hc, Bool.false_eq_true, if_false, hlit]
        exact ihr.1
      · rw [execSteps]
        simp only [hc, Bool.false_eq_true, if_false, hlit]
        rw [ihr.2, hcmds]
        simp [List.append_assoc]

theorem C3_witness :
    execSteps ctxFail1 (fun _ _ _ s => (.ok, s)) [.str "c"] [] false
        [.str "c", .str "d"] 0 ⟨[], []⟩ =
      execSteps ctxFail1 (fun _ _ _ s => (.ok, s)) [.str "c"] [] false
        [.str "c"] 0 ⟨[], []⟩ :=
  (C3_continue_on_error_policy.1 ctxFail1 (fun _ _ _ s => (.ok, s)) [.str "c"] []
    0 ⟨[], []⟩ (.str "c") [.str "d"] 1 "" "boom" rfl rfl rfl (by decide)).1

/-! ## C6: call-stack invariants -/

theorem runLiteral_stack (ctx : Ctx) (allCmds : List PyVal)
    (env : List (String × PyVal)) (con : Bool) (i : Nat) (command : PyVal) (st : St) :
    (runLiteral ctx allCmds env con i command st).2.stack = st.stack := by
  rw [runLiteral]
  repeat' split
  all_goals simp [emit]

theorem propagateStep_none (p : Outcome × St) (st2 : St)
    (h : propagateStep p = (Option.none, st2)) : p.1 = .ok ∧ p.2 = st2 := by
  obtain ⟨o, s⟩ := p
  cases o <;> simp [propagateStep] at h <;> simp [h]

theorem propagateStep_some (p : Outcome × St) (out : Outcome) (st2 : St)
    (h : propagateStep p = (some out, st2)) : p.1 = out ∧ p.2 = st2 ∧ out ≠ .ok := by
  obtain ⟨o, s⟩ := p
  cases o <;> simp [propagateStep] at h <;> simp_all <;> intro hc <;> simp_all

theorem runCallStep_none_stack (ctx : Ctx)
    (recurse : String → PyVal → Bool → St → Outcome × St) (con : Bool)
    (command : PyVal) (st : St)
    (hrec_ok : ∀ n d c s, (recurse n d c s).1 = .ok → (recurse n d c s).2.stack = s.stack)
    (st2 : St) (h : runCallStep ctx recurse con command st = (Option.none, st2)) :
    st2.stack = st.stack := by
  rw [runCallStep] at h
  split at h
  · exact absurd h (by simp)
  · split at h
    · split at h
      · exact absurd h (by simp)
      · obtain ⟨h1, h2⟩ := Prod.mk.injEq .. ▸ h
        rw [← h2]
        simp [emit]
    · obtain ⟨hok, hst⟩ := propagateStep_none _ _ h
      rw [← hst]
      rw [hrec_ok _ _ _ _ hok]
      simp [emit]

theorem runCallStep_some_not_ok (ctx : Ctx)
    (recurse : String → PyVal → Bool → St → Outcome × St) (con : Bool)
    (command : PyVal) (st : St) (out : Outcome) (st2 : St)
    (h : runCallStep ctx recurse con command st = (some out, st2)) : out ≠ .ok := by
  rw [runCallStep] at h
  split at h
  · simp only [Prod.mk.injEq, Option.some.injEq] at h
    rw [← h.1]
    exact fun hc => nomatch hc
  · split at h
    · split at h
      · simp only [Prod.mk.injEq, Option.some.injEq] at h
        rw [← h.1]
        exact fun hc => nomatch hc
      · exact absurd h (by simp)
    · exact (propagateStep_some _ _ _ h).2.2

theorem runCallStep_stack_nodup (ctx : Ctx)
    (recurse : String → PyVal → Bool → St → Outcome × St) (con : Bool)
    (command : PyVal) (st : St)
    (hrec_nodup : ∀ n d c s, s.stack.Nodup → (recurse n d c s).2.stack.Nodup)
    (h : st.stack.Nodup) :
    (runCallStep ctx recurse con command st).2.stack.Nodup := by
  rw [runCallStep]
  split
  · simpa [emit] using h
  · split
    · split
      · simpa [emit] using h
      · simpa [emit] using h
    · rw [propagateStep_snd]
      exact hrec_nodup _ _ _ _ (by simpa [emit] using h)

theorem execSteps_stack_ok (ctx : Ctx)
    (recurse : String → PyVal → Bool → St → Outcome × St)
    (allCmds : List PyVal) (env : List (String × PyVal)) (con : Bool)
    (hrec_ok : ∀ n d c s, (recurse n d c s).1 = .ok → (recurse n d c s).2.stack = s.stack) :
    ∀ (rem : List PyVal) (i : Nat) (st : St),
      (execSteps ctx recurse allCmds env con rem i st).1 = .ok →
      (execSteps ctx recurse allCmds env con rem i st).2.stack = st.stack := by
  intro rem
  induction rem with
  | nil => intro i st _; simp [execSteps]
  | cons command rest ih =>
    intro i st
    rw [execSteps]
    split
    · split
      · next out st2 h =>
          intro hok
          exact absurd (show out = .ok from hok)
            (runCallStep_some_not_ok ctx recurse con command st out st2 h)
      · next st2 h =>
          intro hok
          rw [ih _ _ hok]
          exact runCallStep_none_stack ctx recurse con command st hrec_ok st2 h
    · split
      · next code st2 h => intro hok; exact absurd hok (by simp)
      · next st2 h =>
          intro hok
          rw [ih _ _ hok]
          have h1 := runLiteral_stack ctx allCmds env con i command st
          rw [h] at h1
          exact h1

theorem execSteps_stack_nodup (ctx : Ctx)
    (recurse : String → PyVal → Bool → St → Outcome × St)
    (allCmds : List PyVal) (env : List (String × PyVal)) (con : Bool)
    (hrec_nodup : ∀ n d c s, s.stack.Nodup → (recurse n d c s).2.stack.Nodup) :
    ∀ (rem : List PyVal) (i : Nat) (st : St), st.stack.Nodup →
      (execSteps ctx recurse allCmds env con rem i st).2.stack.Nodup := by
  intro rem
  induction rem with
  | nil => intro i st h; simpa [execSteps] using h
  | cons command rest ih =>
    intro i st hnd
    rw [execSteps]
    split
    · have hall := runCallStep_stack_nodup ctx recurse con command st hrec_nodup hnd
      split
      · next out st2 h => rw [h] at hall; exact hall
      · next st2 h =>
          refine ih _ _ ?_
          rw [h] at hall
          exact hall
    · have hall := runLiteral_stack ctx allCmds env con i command st
      split
      · next code st2 h =>
          have h2 : st2.stack = st.stack := by rw [h] at hall; exact hall
          exact h2.symm ▸ hnd
      · next st2 h =>
          refine ih _ _ ?_
          have h2 : st2.stack = st.stack := by rw [h] at hall; exact hall
          exact h2.symm ▸ hnd

theorem finishRun_ok (n : String) (p : Outcome × St) (h : (finishRun n p).1 = .ok) :
    p.1 = .ok ∧ (finishRun n p).2.stack = p.2.stack.erase n := by
  obtain ⟨o, s⟩ := p
  cases o <;> simp [finishRun, emit] at h ⊢

theorem finishRun_stack_nodup (n : String) (p : Outcome × St) (h : p.2.stack.Nodup) :
    (finishRun n p).2.stack.Nodup := by
  obtain ⟨o, s⟩ := p
  cases o <;> simp [finishRun, emit]
  case ok => exact h.erase n
  all_goals exact h

/-- C6: the call stack is an invariant-preserving structure.  Entering
execute with a name already on the stack exits immediately (so a name is
never pushed twice and appears at most once at any instant — the stack
stays duplicate-free through every call); and on every normal return
(including runs with steps skipped under continue-on-error) the stack
equals its pre-call state: push and pop balance on every path that does
not itself exit the process. -/
theorem C6_call_stack_invariants :
    (∀ (ctx : Ctx) (fuel : Nat) (n : String) (d : PyVal) (con : Bool) (st : St),
       st.stack.contains n = true →
       executeMacro ctx (fuel + 1) n d con st =
         (.exit 1,
          emit (.error (let chain := joinArrow (ctx.setIter st.stack)
            s!"Circular macro call detected in macro '{n}'. Call stack: {chain} -> {n}")) st)) ∧
    (∀ (ctx : Ctx) (fuel : Nat) (n : String) (d : PyVal) (con : Bool) (st : St),
       (executeMacro ctx fuel n d con st).1 = .ok →
       (executeMacro ctx fuel n d con st).2.stack = st.stack) ∧
    (∀ (ctx : Ctx) (fuel : Nat) (n : String) (d : PyVal) (con : Bool) (st : St),
       st.stack.Nodup → (executeMacro ctx fuel n d con st).2.stack.Nodup) := by
  refine ⟨executeMacro_cycle_detected, ?_, ?_⟩
  · intro ctx fuel
    induction fuel with
    | zero => intro n d con st h; exact absurd h (by simp [executeMacro])
    | succ fuel ih =>
      intro n d con st
      rw [executeMacro]
      split
      · exact fun h => nomatch h
      next hni =>
        have hn : n ∉ st.stack := by simpa using hni
        have herase : (st.stack ++ [n]).erase n = st.stack := by
          rw [List.erase_append_right _ hn, List.erase_cons_head, List.append_nil]
        split
        · exact fun h => nomatch h
        · split
          · intro hok
            obtain ⟨hok2, hstack⟩ := finishRun_ok _ _ hok
            rw [hstack]
            rw [execSteps_stack_ok ctx _ _ _ con (fun n2 d2 c2 s2 => ih n2 d2 c2 s2) _ 0 _ hok2]
            simpa [emit] using herase
          · intro hok
            obtain ⟨hok2, hstack⟩ := finishRun_ok _ _ hok
            rw [hstack]
            rw [execSteps_stack_ok ctx _ _ _ con (fun n2 d2 c2 s2 => ih n2 d2 c2 s2) _ 0 _ hok2]
            simpa [emit] using herase
          · exact fun h => nomatch h
  · intro ctx fuel
    induction fuel with
    | zero => intro n d con st h; simpa [executeMacro] using h
    | succ fuel ih =>
      intro n d con st hnd
      rw [executeMacro]
      split
      · simpa [emit] using hnd
      next hni =>
        have hn : n ∉ st.stack := by simpa using hni
        have hpush : (st.stack ++ [n]).Nodup := by
          simp [List.nodup_append, hnd, hn]
        split
        · simpa [emit] using hpush
        · split
          · apply finishRun_stack_nodup
            apply execSteps_stack_nodup ctx _ _ _ con (fun n2 d2 c2 s2 => ih n2 d2 c2 s2)
            simpa [emit] using hpush
          · apply finishRun_stack_nodup
            apply execSteps_stack_nodup ctx _ _ _ con (fun n2 d2 c2 s2 => ih n2 d2 c2 s2)
            simpa [emit] using hpush
          · simpa [emit] using hpush

/-- A macro calling a name absent from every mapping. -/
def defCallMissing : PyVal := .dict [("commands", .list [.dict [("call", .str "missing")]])]

theorem C6_witness :
    (executeMacro ctxCyc2 10 "c" defCallMissing true ⟨[], []⟩).2.stack = [] :=
  C6_call_stack_invariants.2.1 ctxCyc2 10 "c" defCallMissing true ⟨[], []⟩ rfl

/-! ## C8: dry-run never invokes the command executor -/

theorem runLiteral_dry (ctx : Ctx) (allCmds : List PyVal) (env : List (String × PyVal))
    (con : Bool) (i : Nat) (command : PyVal) (st : St) (hdry : ctx.dry_run = true) :
    ∃ st2, runLiteral ctx allCmds env con i command st = (Option.none, st2) ∧
      st2.events.countP isExecCmdE = st.events.countP isExecCmdE := by
  rw [runLiteral]
  simp only [hdry, if_true]
  exact ⟨_, rfl, by simp [emit, isExecCmdE, List.countP_append]⟩

theorem runCallStep_count (ctx : Ctx)
    (recurse : String → PyVal → Bool → St → Outcome × St) (con : Bool)
    (command : PyVal) (st : St)
    (hrec_count : ∀ n d c s,
      (recurse n d c s).2.events.countP isExecCmdE = s.events.countP isExecCmdE) :
    (runCallStep ctx recurse con command st).2.events.countP isExecCmdE =
      st.events.countP isExecCmdE := by
  rw [runCallStep]
  split
  · simp [emit, List.countP_append, isExecCmdE]
  · split
    · split
      · simp [emit, List.countP_append, isExecCmdE]
      · simp [emit, List.countP_append, isExecCmdE]
    · rw [propagateStep_snd, hrec_count]
      simp [emit, List.countP_append, isExecCmdE]

theorem runCallStep_exit_codes (ctx : Ctx)
    (recurse : String → PyVal → Bool → St → Outcome × St) (con : Bool)
    (command : PyVal) (st : St)
    (hrec_exit : ∀ n d c s code, (recurse n d c s).1 = .exit code → code = 1)
    (out : Outcome) (st2 : St)
    (h : runCallStep ctx recurse con command st = (some out, st2)) :
    ∀ code, out = .exit code → code = 1 := by
  rw [runCallStep] at h
  split at h
  · simp only [Prod.mk.injEq, Option.some.injEq] at h
    rw [← h.1]
    exact fun code hc => nomatch hc
  · split at h
    · split at h
      · simp only [Prod.mk.injEq, Option.some.injEq] at h
        rw [← h.1]
        intro code hc
        injection hc with h2
        exact h2.symm
      · exact absurd h (by simp)
    · obtain ⟨h1, _, _⟩ := propagateStep_some _ _ _ h
      intro code hc
      exact hrec_exit _ _ _ _ code (by rw [h1, hc])

theorem execSteps_dry (ctx : Ctx)
    (recurse : String → PyVal → Bool → St → Outcome × St)
    (allCmds : List PyVal) (env : List (String × PyVal)) (con : Bool)
    (hdry : ctx.dry_run = true)
    (hrec_count : ∀ n d c s,
      (recurse n d c s).2.events.countP isExecCmdE = s.events.countP isExecCmdE)
    (hrec_exit : ∀ n d c s code, (recurse n d c s).1 = .exit code → code = 1) :
    ∀ (rem : List PyVal) (i : Nat) (st : St),
      ((execSteps ctx recurse allCmds env con rem i st).2.events.countP isExecCmdE =
        st.events.countP isExecCmdE) ∧
      (∀ code, (execSteps ctx recurse allCmds env con rem i st).1 = .exit code →
        code = 1) := by
  intro rem
  induction rem with
  | nil =>
    intro i st
    exact ⟨by simp [execSteps], fun code h => nomatch h⟩
  | cons command rest ih =>
    intro i st
    rw [execSteps]
    split
    · have hc := runCallStep_count ctx recurse con command st hrec_count
      split
      · next out st2 h =>
          rw [h] at hc
          refine ⟨hc, ?_⟩
          exact runCallStep_exit_codes ctx recurse con command st hrec_exit out st2 h
      · next st2 h =>
          rw [h] at hc
          have ihr := ih (i + 1) st2
          exact ⟨ihr.1.trans hc, ihr.2⟩
    · obtain ⟨st2, hlit, hcnt⟩ := runLiteral_dry ctx allCmds env con i command st hdry
      rw [hlit]
      have ihr := ih (i + 1) st2
      exact ⟨ihr.1.trans hcnt, ihr.2⟩

theorem finishRun_count (n : String) (p : Outcome × St) :
    (finishRun n p).2.events.countP isExecCmdE = p.2.events.countP isExecCmdE := by
  obtain ⟨o, s⟩ := p
  cases o <;> simp [finishRun, emit, List.countP_append, isExecCmdE]

theorem finishRun_exit (n : String) (p : Outcome × St) (code : Int)
    (h : (finishRun n p).1 = .exit code) : p.1 = .exit code := by
  obtain ⟨o, s⟩ := p
  cases o <;> simpa [finishRun] using h

/-- C8: in dry-run mode the command executor is never invoked — the
trace of any execution contains exactly as many executor invocations as
it started with, i.e. none are added — so no external process runs, and
no command failure can terminate the run even with continue-on-error
false: every fatal exit in dry-run mode carries code 1 (cycle,
validation, or missing-macro), never a command's exit status. -/
theorem C8_dry_run_never_executes :
    ∀ (ctx : Ctx), ctx.dry_run = true →
    ∀ (fuel : Nat) (n : String) (d : PyVal) (con : Bool) (st : St),
      ((executeMacro ctx fuel n d con st).2.events.countP isExecCmdE =
        st.events.countP isExecCmdE) ∧
      (∀ code, (executeMacro ctx fuel n d con st).1 = .exit code → code = 1) := by
  intro ctx hdry fuel
  induction fuel with
  | zero =>
    intro n d con st
    exact ⟨by simp [executeMacro], fun code h => nomatch h⟩
  | succ fuel ih =>
    intro n d con st
    rw [executeMacro]
    split
    · refine ⟨by simp [emit, List.countP_append, isExecCmdE], ?_⟩
      intro code hc
      injection hc with h2
      exact h2.symm
    · split
      · refine ⟨by simp [emit, List.countP_append, isExecCmdE], ?_⟩
        intro code hc
        injection hc with h2
        exact h2.symm
      · split
        · constructor
          · rw [finishRun_count]
            rw [(execSteps_dry ctx _ _ _ con hdry
              (fun n2 d2 c2 s2 => (ih n2 d2 c2 s2).1)
              (fun n2 d2 c2 s2 => (ih n2 d2 c2 s2).2) _ 0 _).1]
            simp [emit, List.countP_append, isExecCmdE]
          · intro code hc
            exact (execSteps_dry ctx _ _ _ con hdry
              (fun n2 d2 c2 s2 => (ih n2 d2 c2 s2).1)
              (fun n2 d2 c2 s2 => (ih n2 d2 c2 s2).2) _ 0 _).2 code
              (finishRun_exit _ _ code hc)
        · constructor
          · rw [finishRun_count]
            rw [(execSteps_dry ctx _ _ _ con hdry
              (fun n2 d2 c2 s2 => (ih n2 d2 c2 s2).1)
              (fun n2 d2 c2 s2 => (ih n2 d2 c2 s2).2) _ 0 _).1]
            simp [emit, List.countP_append, isExecCmdE]
          · intro code hc
            exact (execSteps_dry ctx _ _ _ con hdry
              (fun n2 d2 c2 s2 => (ih n2 d2 c2 s2).1)
              (fun n2 d2 c2 s2 => (ih n2 d2 c2 s2).2) _ 0 _).2 code
              (finishRun_exit _ _ code hc)
        · refine ⟨by simp [emit, List.countP_append, isExecCmdE], ?_⟩
          intro code hc
          injection hc with h2
          exact h2.symm

/-- `ctxPlain` in dry-run mode. -/
def ctxDry : Ctx := { ctxPlain with dry_run := true }

theorem C8_witness :
    (executeMacro ctxDry 10 "a" defTwo false ⟨[], []⟩).2.events.countP isExecCmdE = 0 :=
  (C8_dry_run_never_executes ctxDry rfl 10 "a" defTwo false ⟨[], []⟩).1.trans rfl
